import Mathlib

/-!
Verification of core components of the locutus repository against its
natural-language specification.

The development shallowly embeds the relevant Rust code:

* `crates/locutus-stdlib/src/interface.rs` — contract data, contract keys and
  the contract specification envelope codec;
* `crates/locutus-router/src/lib.rs` — the `PeerTimeEstimator` built on
  isotonic (PAV) regressions;
* `crates/locutus-node/src/operations/join_ring.rs` — the join-ring state
  machine, `update_state` and the `join_ring_op` dispatch routine;
* `apps/freenet-email-app/web/src/inbox.rs` — the in-memory inbox model.

Modelling conventions: byte strings are `List Nat`; `u64`/`usize` values are
`Nat` (the one place where `usize` subtraction can underflow is noted at its
definition); `f64` quantities are modelled as `ℚ`; a Rust panic (including a
`todo!()` arm and a failed `copy_from_slice`) is an explicit outcome
(`none` of an `Option`, or a dedicated constructor) so that divergence is
observable; fallible code returns `Option`/`Except`.  Nondeterministic inputs
(`Location::random()`, `Ring::random_peer`) are passed as explicit oracle
arguments.  Types that the claims depend on but whose sources are not part of
the excerpt (the node `Ring`, the `pav_regression` crate) are modelled from
the specification text; their doc comments say so.
-/

/-! ### Contract interface (`crates/locutus-stdlib/src/interface.rs`) -/

/-- Mirrors `const CONTRACT_KEY_SIZE: usize = 64`. -/
def CONTRACT_KEY_SIZE : Nat := 64

/-- A cryptographic hash function as the `blake2` crate presents it: a total
function on byte strings together with its fixed digest length, which in the
crate is enforced at the type level (`Blake2s256` always yields 32 bytes,
`Blake2b512` always yields 64 bytes).  The development is parameterized over
any such function, since the claims depend only on digest lengths. -/
structure HashImpl where
  f : List Nat → List Nat
  outLen : Nat
  hLen : ∀ d, (f d).length = outLen

/-- Mirrors `ContractData::gen_key`.  The Rust code hashes `data` with
`Blake2s256` and then runs `key.copy_from_slice(&key_arr)` where `key` is a
`[u8; 64]`; `copy_from_slice` panics when the two slices have different
lengths, so the panic is modelled as `none`.  (The function also carries
`debug_assert_eq!(key_arr.len(), CONTRACT_KEY_SIZE)`.) -/
def ContractData.genKey (h256 : HashImpl) (data : List Nat) : Option (List Nat) :=
  let keyArr := h256.f data
  if keyArr.length = CONTRACT_KEY_SIZE then some keyArr else none

/-- Mirrors `struct ContractData` (the `data` bytes and the cached
`key = H(data)` field). -/
structure ContractData where
  data : List Nat
  key : List Nat
deriving DecidableEq

/-- Mirrors `impl From<Vec<u8>> for ContractData`: builds the struct after
computing the key with `gen_key`; a panic in `gen_key` propagates as
`none`. -/
def ContractData.fromBytes (h256 : HashImpl) (data : List Nat) : Option ContractData :=
  (ContractData.genKey h256 data).map (fun k => ⟨data, k⟩)

/-- Mirrors `struct ContractKey`, with the full `spec` hash and the
`contract` part (`H(contract_code)`). -/
structure ContractKey where
  spec : List Nat
  contract : List Nat
deriving DecidableEq

/-- Mirrors `impl From<(T, U)> for ContractKey`: hashes
`contract_hash || parameters` with `Blake2b512` and copies the digest into a
`[u8; 64]` via `copy_from_slice` (panic on length mismatch modelled as
`none`). -/
def ContractKey.fromParts (h512 : HashImpl) (parameters : List Nat)
    (contract : ContractData) : Option ContractKey :=
  let fullKeyArr := h512.f (contract.key ++ parameters)
  if fullKeyArr.length = CONTRACT_KEY_SIZE then some ⟨fullKeyArr, contract.key⟩ else none

/-- Mirrors `struct ContractSpecification`. -/
structure ContractSpecification where
  parameters : List Nat
  contract : ContractData
  key : ContractKey
deriving DecidableEq

/-- Failure of `TryFrom<Vec<u8>> for ContractSpecification`: `eof` is the
`std::io::Error` returned by `read_u64`/`read_exact` on truncated input;
`diverged` records that the decode panicked (inside key generation). -/
inductive DecodeError where
  | eof
  | diverged
deriving DecidableEq

/-- Little-endian `read_u64` from a cursor: consumes 8 bytes or fails. -/
def readU64LE (bs : List Nat) : Option (Nat × List Nat) :=
  if 8 ≤ bs.length then
    some ((bs.take 8).reverse.foldl (fun acc b => acc * 256 + b) 0, bs.drop 8)
  else none

/-- `read_exact` into a buffer of length `n`: consumes `n` bytes or fails. -/
def readExact (bs : List Nat) (n : Nat) : Option (List Nat × List Nat) :=
  if n ≤ bs.length then some (bs.take n, bs.drop n) else none

/-- Mirrors `impl TryFrom<Vec<u8>> for ContractSpecification`: reads
`u64 params_len || params || u64 contract_code_len || contract_code`,
rebuilds `ContractData` (recomputing `H(code)`) and the `ContractKey`, and
returns the assembled specification.  Note that the function receives no
advertised key and compares the recomputed key against nothing. -/
def ContractSpecification.tryFrom (h256 h512 : HashImpl) (data : List Nat) :
    Except DecodeError ContractSpecification :=
  match readU64LE data with
  | none => .error .eof
  | some (paramsLen, rest1) =>
    match readExact rest1 paramsLen with
    | none => .error .eof
    | some (paramsBuf, rest2) =>
      match readU64LE rest2 with
      | none => .error .eof
      | some (contractLen, rest3) =>
        match readExact rest3 contractLen with
        | none => .error .eof
        | some (contractBuf, _) =>
          match ContractData.fromBytes h256 contractBuf with
          | none => .error .diverged
          | some contract =>
            match ContractKey.fromParts h512 paramsBuf contract with
            | none => .error .diverged
            | some key => .ok ⟨paramsBuf, contract, key⟩

/-- A concrete 32-byte-output hash, standing in for `Blake2s256` in witnesses
(only the digest length matters to the statements it is used in). -/
def hashOut32 : HashImpl :=
  ⟨fun _ => List.replicate 32 0, 32, fun _ => List.length_replicate 32 0⟩

/-- A concrete 64-byte-output hash, standing in for `Blake2b512` in
witnesses. -/
def hashOut64 : HashImpl :=
  ⟨fun _ => List.replicate 64 0, 64, fun _ => List.length_replicate 64 0⟩

/-! ### Router (`crates/locutus-router/src/lib.rs`)

The estimator logic itself (`new`, `add_event`, `estimate_retrieval_time`)
is translated from the source.  The `IsotonicRegression` type comes from the
external `pav_regression` crate and is modelled from the specification text:
an ascending isotonic (pool-adjacent-violators) fit over weighted points,
with piecewise-linear interpolation clamped to the endpoint values, and
`len` counting the recorded observation points. -/

/-- Mirrors `const MIN_PEER_POINTS_FOR_REGRESSION: usize = 10`. -/
def MIN_PEER_POINTS_FOR_REGRESSION : Nat := 10

/-- Circular arc distance on the ring `[0, 1)`:
`min(|a - b|, 1 - |a - b|)` (the `Location::distance` used by the router and
the ring).  `abs` and `min` are spelled with conditionals so that concrete
instances evaluate by rewriting. -/
def Location.dist (a b : ℚ) : ℚ :=
  let d := if a ≤ b then b - a else a - b
  if d ≤ 1 - d then d else 1 - d

/-- A weighted sample point of the `pav_regression` crate (`Point::new`
gives weight 1). -/
structure Point where
  x : ℚ
  y : ℚ
  w : ℚ
deriving DecidableEq

/-- Mirrors `struct RoutingEvent`: `(peer, peer_location, contract_location,
result)` with the measured retrieval time as `result`. -/
structure RoutingEvent where
  peer : Nat
  peerLocation : ℚ
  contractLocation : ℚ
  result : ℚ
deriving DecidableEq

/-- The point the router derives from an event:
`Point::new(peer_location.distance(contract_location), result)`. -/
def RoutingEvent.toPoint (e : RoutingEvent) : Point :=
  ⟨Location.dist e.peerLocation e.contractLocation, e.result, 1⟩

/-- Stable insertion into a list sorted by `x` (ties keep earlier points
first), modelling the stable sort the crate applies before fitting. -/
def insertByX (p : Point) : List Point → List Point
  | [] => [p]
  | q :: qs => if p.x < q.x then p :: q :: qs else q :: insertByX p qs

/-- Stable sort by `x`. -/
def sortByX (l : List Point) : List Point := l.foldl (fun acc p => insertByX p acc) []

/-- Weighted mean of two centroids (the pooling step of PAV). -/
def mergeCentroid (a b : Point) : Point :=
  ⟨(a.x * a.w + b.x * b.w) / (a.w + b.w), (a.y * a.w + b.y * b.w) / (a.w + b.w), a.w + b.w⟩

/-- Pushes a point onto the PAV centroid stack (held in reverse order),
pooling while the ascending-monotonicity constraint is violated. -/
def pavPush (stack : List Point) (p : Point) : List Point :=
  match stack with
  | [] => [p]
  | top :: rest => if p.y < top.y then pavPush rest (mergeCentroid top p) else p :: top :: rest

/-- Pool-adjacent-violators over points already sorted by `x`, ascending. -/
def pav (pts : List Point) : List Point := (pts.foldl pavPush []).reverse

/-- Modelled from the spec: the `pav_regression` crate regression state.
`points` are the recorded observations, `centroids` the fitted ascending
step/knot sequence. -/
structure IsotonicRegression where
  points : List Point
  centroids : List Point
deriving DecidableEq

/-- `IsotonicRegression::new_ascending`. -/
def IsotonicRegression.newAscending (pts : List Point) : IsotonicRegression :=
  ⟨pts, pav (sortByX pts)⟩

/-- Modelled from the spec: `len` counts the recorded observation points. -/
def IsotonicRegression.len (r : IsotonicRegression) : Nat := r.points.length

/-- `add_points`: the regression over the old observations plus the new
ones. -/
def IsotonicRegression.addPoints (r : IsotonicRegression) (new : List Point) :
    IsotonicRegression :=
  IsotonicRegression.newAscending (r.points ++ new)

/-- Piecewise-linear walk along the fitted centroids; past the last knot the
value clamps to the last `y`. -/
def interpolateGo : Point → List Point → ℚ → ℚ
  | p, [], _ => p.y
  | p, q :: qs, x =>
    if x ≤ q.x then p.y + (q.y - p.y) * (x - p.x) / (q.x - p.x)
    else interpolateGo q qs x

/-- Modelled from the spec: interpolation is piecewise-linear between fitted
points and clamps to the endpoint value outside the observed range (an empty
regression is never interpolated by the callers below; it yields 0 here). -/
def IsotonicRegression.interpolate (r : IsotonicRegression) (x : ℚ) : ℚ :=
  match r.centroids with
  | [] => 0
  | first :: rest => if x ≤ first.x then first.y else interpolateGo first rest x

/-- Mirrors `struct PeerTimeEstimator`; the `HashMap<PeerId,
IsotonicRegression>` is modelled extensionally as a function to
`Option`. -/
structure PeerTimeEstimator where
  globalRegression : IsotonicRegression
  peerRegressions : Nat → Option IsotonicRegression

/-- Mirrors `PeerTimeEstimator::new`: one point per event feeds the global
regression; the events of each peer (in history order) feed a per-peer
regression only when that peer has strictly more than
`MIN_PEER_POINTS_FOR_REGRESSION` of them. -/
def PeerTimeEstimator.new (history : List RoutingEvent) : PeerTimeEstimator :=
  { globalRegression :=
      IsotonicRegression.newAscending (history.map RoutingEvent.toPoint)
    peerRegressions := fun p =>
      let pts := (history.filter (fun e => e.peer == p)).map RoutingEvent.toPoint
      if MIN_PEER_POINTS_FOR_REGRESSION < pts.length then
        some (IsotonicRegression.newAscending pts)
      else none }

/-- Mirrors `PeerTimeEstimator::add_event`: the point is added to the global
regression, and to the peer regression, which is created first — seeded with
that same point, exactly as `or_insert_with(|| new_ascending(&[point]))`
does — when the peer had none. -/
def PeerTimeEstimator.addEvent (est : PeerTimeEstimator) (e : RoutingEvent) :
    PeerTimeEstimator :=
  let pt := e.toPoint
  { globalRegression := est.globalRegression.addPoints [pt]
    peerRegressions := fun p =>
      if p == e.peer then
        some ((match est.peerRegressions e.peer with
               | some r => r
               | none => IsotonicRegression.newAscending [pt]).addPoints [pt])
      else est.peerRegressions p }

/-- Mirrors `PeerTimeEstimator::estimate_retrieval_time`. -/
def PeerTimeEstimator.estimateRetrievalTime (est : PeerTimeEstimator) (peer : Nat)
    (distance : ℚ) : Option ℚ :=
  match est.peerRegressions peer with
  | some regression => some (regression.interpolate distance)
  | none =>
    if MIN_PEER_POINTS_FOR_REGRESSION < est.globalRegression.len then
      some (est.globalRegression.interpolate distance)
    else none

/-- A routing event for peer 2 at ring distance `1/2` with measured time 5,
used to populate the estimator in concrete statements. -/
def eventB : RoutingEvent := ⟨2, 0, 1/2, 5⟩

/-- A routing event for peer 1 at ring distance `1/4` with measured time 1. -/
def eventA : RoutingEvent := ⟨1, 0, 1/4, 1⟩

/-- An estimator built from twelve observations of peer 2, after which one
single observation of peer 1 is added through `add_event`. -/
def estAfterAdd : PeerTimeEstimator :=
  (PeerTimeEstimator.new (List.replicate 12 eventB)).addEvent eventA

/-! ### Join-ring operation (`crates/locutus-node/src/operations/join_ring.rs`)

`Transaction` and `PeerKey` values are opaque identifiers, modelled as `Nat`.
A `Location` is a `ℚ` in `[0, 1)`.  The node `Ring` type is not part of the
source excerpt; its pieces used here (`connections_by_location` as an ordered
map with exact-key `get`, `should_accept`, the tuning constants) are modelled
from the specification text. -/

/-- Mirrors `PeerKeyLocation`: a peer identifier with an optional ring
location. -/
structure PeerKeyLocation where
  peer : Nat
  location : Option ℚ
deriving DecidableEq

/-- Mirrors `enum JoinRequest` (field order as in the source:
`target_loc`, `req_peer`, `hops_to_live`, `max_hops_to_live`). -/
inductive JoinRequest where
  | initial (targetLoc : PeerKeyLocation) (reqPeer : Nat)
      (hopsToLive : Nat) (maxHopsToLive : Nat)
  | proxy (joiner : PeerKeyLocation) (hopsToLive : Nat)
deriving DecidableEq

/-- Mirrors `enum JoinResponse`. -/
inductive JoinResponse where
  | initial (acceptedBy : List PeerKeyLocation) (yourLocation : ℚ) (yourPeerId : Nat)
  | receivedOC (byPeer : PeerKeyLocation)
  | proxy (acceptedBy : List PeerKeyLocation)
deriving DecidableEq

/-- Mirrors `enum JoinRingMsg`. -/
inductive JoinRingMsg where
  | req (id : Nat) (msg : JoinRequest)
  | resp (id : Nat) (sender : PeerKeyLocation) (msg : JoinResponse)
  | connected
deriving DecidableEq

/-- Mirrors `JoinRingMsg::id`.  The `Connected` arm is `todo!()`, i.e. a
panic, modelled as `none`. -/
def JoinRingMsg.id : JoinRingMsg → Option Nat
  | .req i _ => some i
  | .resp i _ _ => some i
  | .connected => none

/-- Mirrors `JoinRingMsg::sender`, which returns `Option<&PeerKeyLocation>`:
the outer `Option` is the panic of the `todo!()` arm on `Connected`, the
inner one the returned value (`None` for requests). -/
def JoinRingMsg.sender : JoinRingMsg → Option (Option PeerKeyLocation)
  | .req _ _ => some none
  | .resp _ s _ => some (some s)
  | .connected => none

/-- Mirrors `struct ConnectionInfo`. -/
structure ConnectionInfo where
  gateway : PeerKeyLocation
  thisPeer : Nat
  maxHopsToLive : Nat
deriving DecidableEq

/-- Mirrors `enum JRState`. -/
inductive JRState where
  | initializing
  | connecting (info : ConnectionInfo)
  | ocReceived
  | connected
deriving DecidableEq

/-- Mirrors `JROpSM::transition` (a pure function of `rust_fsm`); the match
arms appear in source order, with the catch-all returning `None`. -/
def JROpSM.transition : JRState → JoinRingMsg → Option JRState
  | .initializing, .req _ (.initial targetLoc reqPeer _ maxHopsToLive) =>
    some (.connecting ⟨targetLoc, reqPeer, maxHopsToLive⟩)
  | .connecting _, .resp _ _ (.receivedOC _) => some .ocReceived
  | .initializing, .resp _ _ (.receivedOC _) => some .ocReceived
  | .connecting _, .req _ _ => some .connected
  | .connecting _, .connected => some .connected
  | .ocReceived, .req _ _ => some .connected
  | .ocReceived, .connected => some .connected
  | .connected, _ => none
  | _, _ => none

/-- Mirrors `JROpSM::output` (source arm order). -/
def JROpSM.output : JRState → JoinRingMsg → Option JoinRingMsg
  | .initializing, .req i (.initial targetLoc reqPeer _ _) =>
    some (.resp i ⟨reqPeer, none⟩ (.receivedOC targetLoc))
  | .initializing, .resp _ _ (.receivedOC _) => some .connected
  | .connecting _, .resp _ _ (.receivedOC _) => some .connected
  | .initializing, .connected => some .connected
  | .connecting _, .connected => some .connected
  | .ocReceived, .connected => some .connected
  | _, _ => none

/-- Mirrors `rust_fsm`'s `StateMachine::consume`: when `transition` yields no
state the input is rejected with a `TransitionImpossibleError` (here the
`Except.error ()`); otherwise the machine advances and emits `output`. -/
def JROpSM.consume (state : JRState) (input : JoinRingMsg) :
    Except Unit (JRState × Option JoinRingMsg) :=
  match JROpSM.transition state input with
  | some next => .ok (next, JROpSM.output state input)
  | none => .error ()

/-- Mirrors `struct JoinRingOp`, the operation state stored in
`OpStateStorage` (a `rust_fsm` machine holding a `JRState`). -/
structure JoinRingOpState where
  smState : JRState
deriving DecidableEq

/-- Modelled from the spec: the per-peer `Ring` view.
`connections_by_location` is an ordered map `Location → PeerKeyLocation`
(a `BTreeMap` behind a read-write lock in the repository), modelled as an
association list with unique keys; `max_connections`, `max_hops_to_live` and
`rnd_if_htl_above` are the tuning constants. -/
structure NodeRing where
  connectionsByLocation : List (ℚ × PeerKeyLocation)
  maxConnections : Nat
  maxHopsToLive : Nat
  rndIfHtlAbove : Nat

/-- Exact-key lookup, the `BTreeMap::get` of `connections_by_location`. -/
def btreeGet (m : List (ℚ × PeerKeyLocation)) (l : ℚ) : Option PeerKeyLocation :=
  (m.find? (fun kv => kv.1 == l)).map (fun kv => kv.2)

/-- Modelled from the spec: `Ring::should_accept` is true iff the neighbor
set has fewer than `max_connections` members, or the candidate is strictly
closer to this ring location than the currently farthest neighbor. -/
def NodeRing.shouldAccept (r : NodeRing) (myLoc candidateLoc : ℚ) : Bool :=
  let farthest := r.connectionsByLocation.foldl
    (fun acc kv => max acc (Location.dist myLoc kv.1)) 0
  decide (r.connectionsByLocation.length < r.maxConnections) ||
    decide (Location.dist myLoc candidateLoc < farthest)

/-- The forward-target computation inside `update_state` on `Req::Initial`:
with `hops_to_live >= rnd_if_htl_above` the result of
`ring.random_peer(|p| p.peer != req_peer)` (the `rndPeer` oracle), otherwise
`ring.connections_by_location.get(&new_location)` filtered by
`|it| it.peer != req_peer`. -/
def forwardTarget (ring : NodeRing) (reqPeer hopsToLive : Nat) (newLocation : ℚ)
    (rndPeer : Option PeerKeyLocation) : Option PeerKeyLocation :=
  if ring.rndIfHtlAbove ≤ hopsToLive then rndPeer
  else
    match btreeGet ring.connectionsByLocation newLocation with
    | some it => if it.peer == reqPeer then none else some it
    | none => none

/-- Mirrors `enum OpError`/`OpExecutionError` as far as `update_state`
produces them. -/
inductive OpError where
  | txUpdateFailure (tx : Nat)
  | illegalStateTransition
deriving DecidableEq

/-- Mirrors `OperationResult { return_msg, state }` (specialized to the
join-ring operation). -/
structure OperationResult where
  returnMsg : Option JoinRingMsg
  state : Option JoinRingOpState
deriving DecidableEq

/-- Outcome of one `update_state` call.  `ok sent res` returns `res` after
performing the sends in `sent`; `err` is an early `Err` return (the `?` on a
missing location); `hitTodo sent` records that the call reached a `todo!()`
arm — a panic — after performing the sends in `sent`. -/
inductive UpdateOutcome where
  | ok (sent : List (PeerKeyLocation × JoinRingMsg)) (res : OperationResult)
  | err (e : OpError)
  | hitTodo (sent : List (PeerKeyLocation × JoinRingMsg))
deriving DecidableEq

/-- Mirrors `update_state`.  `newLocation` is the oracle for
`Location::random()`, `rndPeer` the oracle for `ring.random_peer`.  On
`Req::Initial` the code computes `accepted_by` via `should_accept`, builds
the `Resp::Initial` reply with `sender = your_location` (the request's
`target_loc`), and, when `hops_to_live > 0` and the neighbor map is
nonempty, looks for a forward target: if one exists it sends
`Req::Proxy { joiner, hops_to_live: min(hops_to_live, ring.max_hops_to_live) - 1 }`
to it and then reaches `todo!()`; otherwise it returns the reply with the
operation state unchanged.  All other message shapes reach `todo!()`
immediately.  (The `usize` subtraction in the proxy hop count is modelled by
`Nat` subtraction; the two agree whenever the minimum is positive.) -/
def updateState (ring : NodeRing) (state : JoinRingOpState) (msg : JoinRingMsg)
    (newLocation : ℚ) (rndPeer : Option PeerKeyLocation) : UpdateOutcome :=
  match msg with
  | .req i (.initial targetLoc reqPeer hopsToLive _) =>
    match targetLoc.location with
    | none => .err (.txUpdateFailure i)
    | some yourLoc =>
      let acceptedBy := if ring.shouldAccept yourLoc newLocation then [targetLoc] else []
      let joinResponse := JoinRingMsg.resp i targetLoc (.initial acceptedBy newLocation reqPeer)
      let newPeerLoc : PeerKeyLocation := ⟨reqPeer, some newLocation⟩
      if 0 < hopsToLive ∧ ring.connectionsByLocation.isEmpty = false then
        match forwardTarget ring reqPeer hopsToLive newLocation rndPeer with
        | some forwardTo =>
          .hitTodo [(forwardTo,
            .req i (.proxy newPeerLoc (min hopsToLive ring.maxHopsToLive - 1)))]
        | none => .ok [] ⟨some joinResponse, some state⟩
      else .ok [] ⟨some joinResponse, some state⟩
  | .req _ (.proxy _ _) => .hitTodo []
  | .resp _ _ (.initial _ _ _) => .hitTodo []
  | .resp _ _ (.proxy _) => .hitTodo []
  | .resp _ _ (.receivedOC _) => .hitTodo []
  | .connected => .hitTodo []

/-- A message on the wire as `join_ring_op` sends it: either a join-ring
message or `Message::Canceled(tx)`. -/
inductive WireMsg where
  | joinRing (m : JoinRingMsg)
  | canceled (tx : Nat)
deriving DecidableEq

/-- The observable effects of one `join_ring_op` call that returns: the sends
it performed, the operation it pushed back into storage (if any), and the
error it returned (if any). -/
structure RunResult where
  sent : List (PeerKeyLocation × WireMsg)
  pushed : Option (Nat × JoinRingOpState)
  errored : Option OpError
deriving DecidableEq

/-- Mirrors `join_ring_op`.  `pop` is the `OpStateStorage::pop` view (all
stored operations are join-ring operations here).  The function first reads
`join_op.id()` — so a `Connected` message panics before anything else — then
pops or creates the operation, runs `update_state`, and dispatches on the
`OperationResult`: a present `return_msg` is sent to `return_msg.sender()`
when that is known, and a present updated state is pushed back keyed by
`return_msg.id()`.  An `Err` from `update_state` sends `Canceled(tx)` to the
incoming message's sender when known and returns the error.  `none` models a
panic (a `todo!()` reached inside, or the `unreachable!()` arm). -/
def joinRingOp (ring : NodeRing) (pop : Nat → Option JoinRingOpState) (newLocation : ℚ)
    (rndPeer : Option PeerKeyLocation) (msg : JoinRingMsg) : Option RunResult :=
  match JoinRingMsg.id msg with
  | none => none
  | some tx =>
    let state := (pop tx).getD ⟨JRState.initializing⟩
    match JoinRingMsg.sender msg with
    | none => none
    | some senderOpt =>
      match updateState ring state msg newLocation rndPeer with
      | .err e =>
        some ⟨(match senderOpt with
               | some s => [(s, WireMsg.canceled tx)]
               | none => []), none, some e⟩
      | .hitTodo _ => none
      | .ok sent ⟨some m, some updated⟩ =>
        match JoinRingMsg.id m with
        | none => none
        | some newId =>
          match JoinRingMsg.sender m with
          | none => none
          | some (some target) =>
            some ⟨sent.map (fun p => (p.1, WireMsg.joinRing p.2)) ++ [(target, WireMsg.joinRing m)],
                  some (newId, updated), none⟩
          | some none =>
            some ⟨sent.map (fun p => (p.1, WireMsg.joinRing p.2)), some (newId, updated), none⟩
      | .ok sent ⟨some m, none⟩ =>
        match JoinRingMsg.sender m with
        | none => none
        | some (some target) =>
          some ⟨sent.map (fun p => (p.1, WireMsg.joinRing p.2)) ++ [(target, WireMsg.joinRing m)],
                none, none⟩
        | some none => some ⟨sent.map (fun p => (p.1, WireMsg.joinRing p.2)), none, none⟩
      | .ok sent ⟨none, none⟩ =>
        some ⟨sent.map (fun p => (p.1, WireMsg.joinRing p.2)), none, none⟩
      | .ok _ ⟨none, some _⟩ => none

/-- A ring with a single neighbor, peer 2 sitting at location `1/4`, and the
default tuning constants (`max_connections = 20`, `max_hops_to_live = 10`,
`rnd_if_htl_above = 7`). -/
def ringOneNeighbor : NodeRing := ⟨[(1/4, ⟨2, some (1/4)⟩)], 20, 10, 7⟩

/-- The gateway as the joiner addresses it: peer 1 at location `1/2`. -/
def gatewayPKL : PeerKeyLocation := ⟨1, some (1/2)⟩

/-! ### Inbox model (`apps/freenet-email-app/web/src/inbox.rs`)

Only the in-memory message list and its operations are modelled; the
cryptographic material (RSA keys, signatures, encrypted payloads) does not
participate in the claims and is carried as opaque byte strings.  The `u64`
message ids and counter are modelled as `Nat`: the counter only ever moves by
`+= 1` from the stored message count, so `u64` overflow is unreachable in any
execution. -/

/-- Mirrors `struct DecryptedMessage` (text fields as byte strings, the
timestamp as an integer; the Rust fields `from` and `to` are keywords here
and appear as `sender` and `recipients`). -/
structure DecryptedMessage where
  title : List Nat
  content : List Nat
  sender : List Nat
  recipients : List (List Nat)
  cc : List (List Nat)
  time : Int
deriving DecidableEq

/-- Mirrors `TokenAssignment` as far as the inbox uses it: only the
`assignment_hash` is read by the inbox paths. -/
structure TokenAssignment where
  assignmentHash : List Nat
deriving DecidableEq

/-- Mirrors `struct MessageModel`. -/
structure MessageModel where
  id : Nat
  content : DecryptedMessage
  tokenAssignment : TokenAssignment
deriving DecidableEq

/-- Mirrors `struct InternalSettings` (the RSA private key, used only by the
persistence paths, is elided). -/
structure InternalSettings where
  nextMsgId : Nat
  minimumTier : Nat
deriving DecidableEq

/-- Mirrors `struct InboxModel` (the contract key field, not read by the
modelled operations, is elided). -/
structure InboxModel where
  messages : List MessageModel
  settings : InternalSettings
deriving DecidableEq

/-- Mirrors `InboxModel::add_received_message`: pushes a message carrying
`next_msg_id` and increments the counter. -/
def InboxModel.addReceivedMessage (st : InboxModel) (content : DecryptedMessage)
    (tokenAssignment : TokenAssignment) : InboxModel :=
  { st with
    messages := st.messages ++ [⟨st.settings.nextMsgId, content, tokenAssignment⟩]
    settings := { st.settings with nextMsgId := st.settings.nextMsgId + 1 } }

/-- The loop body of Rust slice `binary_search_by_key`, searching
`msgs[lo..hi]` for the message with id `target`; structural fuel stands in
for the loop (the interval shrinks every iteration, so any fuel of at least
`hi - lo` computes the loop exactly). -/
def binSearchGo (msgs : List MessageModel) (target : Nat) :
    Nat → Nat → Nat → Option Nat
  | 0, _, _ => none
  | fuel + 1, lo, hi =>
    if lo < hi then
      match msgs.get? ((lo + hi) / 2) with
      | none => none
      | some m =>
        if m.id = target then some ((lo + hi) / 2)
        else if m.id < target then binSearchGo msgs target fuel ((lo + hi) / 2 + 1) hi
        else binSearchGo msgs target fuel lo ((lo + hi) / 2)
    else none

/-- `messages.binary_search_by_key(id, |a| a.id)`: `some p` is `Ok(p)`, and
`none` is `Err(_)` (the insertion point, which the caller discards). -/
def binSearchById (msgs : List MessageModel) (target : Nat) : Option Nat :=
  binSearchGo msgs target msgs.length 0 msgs.length

/-- Mirrors `InboxModel::remove_received_message`: with more than one id the
messages are retained through a hash-set filter; otherwise each id (zero or
one of them) is binary-searched and the found position removed. -/
def InboxModel.removeReceivedMessage (st : InboxModel) (ids : List Nat) : InboxModel :=
  if 1 < ids.length then
    { st with messages := st.messages.filter (fun a => !(ids.contains a.id)) }
  else
    ids.foldl (fun acc i =>
      match binSearchById acc.messages i with
      | some p => { acc with messages := acc.messages.eraseIdx p }
      | none => acc) st

/-- The sortedness invariant of the inbox: message ids strictly increase
along the list and stay below the `next_msg_id` counter. -/
def InboxInv (st : InboxModel) : Prop :=
  st.messages.Pairwise (fun a b => a.id < b.id) ∧
    ∀ m ∈ st.messages, m.id < st.settings.nextMsgId

/-- An empty decrypted message for concrete inbox states. -/
def blankMessage : DecryptedMessage := ⟨[], [], [], [], [], 0⟩

/-- A blank token assignment for concrete inbox states. -/
def blankToken : TokenAssignment := ⟨[]⟩

/-- A concrete inbox with three messages (ids 0, 1, 2). -/
def inboxThree : InboxModel :=
  ⟨[⟨0, blankMessage, blankToken⟩, ⟨1, blankMessage, blankToken⟩,
    ⟨2, blankMessage, blankToken⟩], ⟨3, 0⟩⟩

/-! ## Theorems

Helper lemmas come first; each claim is then settled by a single theorem
(with a closed witness instance when the theorem carries hypotheses). -/

/-- With a 32-byte digest, the `copy_from_slice` into the 64-byte key array
must panic: `gen_key` never returns. -/
theorem ContractData.genKey_eq_none (h256 : HashImpl) (h32 : h256.outLen = 32)
    (data : List Nat) : ContractData.genKey h256 data = none := by
  simp [ContractData.genKey, CONTRACT_KEY_SIZE, h256.hLen data, h32]

/-- Consequently no `ContractData` value can ever be constructed from
bytes. -/
theorem ContractData.fromBytes_eq_none (h256 : HashImpl) (h32 : h256.outLen = 32)
    (data : List Nat) : ContractData.fromBytes h256 data = none := by
  simp [ContractData.fromBytes, ContractData.genKey_eq_none h256 h32 data]

/-- Claim C1: the claim reads that for every `(code, parameters)` input the
key derivation succeeds and yields `(H(H(code) || params), H(code))` with `H`
a 512-bit hash, both components 64 bytes.  On the code, the inner hash is
`Blake2s256` — a 256-bit hash — and copying its 32-byte digest into the
64-byte key array panics (`copy_from_slice` length mismatch, and the
function's own `debug_assert_eq!` fails), so for every input the derivation
diverges instead of succeeding: for any hash of the crate-guaranteed 32-byte
output size, `gen_key` and `ContractData::from` produce no value. -/
theorem genKey_always_diverges (h256 : HashImpl) (h32 : h256.outLen = 32)
    (data : List Nat) :
    ContractData.genKey h256 data = none ∧ ContractData.fromBytes h256 data = none :=
  ⟨ContractData.genKey_eq_none h256 h32 data, ContractData.fromBytes_eq_none h256 h32 data⟩

/-- Witness for C1 at the empty code with a concrete 32-byte hash. -/
theorem genKey_always_diverges_witness :
    ContractData.genKey hashOut32 [] = none ∧ ContractData.fromBytes hashOut32 [] = none :=
  genKey_always_diverges hashOut32 rfl []

/-- Claim C2: the claim reads that decoding a contract-specification blob
recomputes the key and rejects the blob when it does not match the advertised
key.  On the code, `TryFrom<Vec<u8>>` receives no advertised key and performs
no comparison; and because key recomputation panics (claim C1), no decode
ever completes at all: every blob either fails the reads (`eof`) or panics in
key generation, and the well-formed 16-zero-byte blob (empty parameters,
empty code) reaches the panic rather than any rejection. -/
theorem tryFrom_never_validates (h256 h512 : HashImpl) (h32 : h256.outLen = 32) :
    (∀ blob s, ContractSpecification.tryFrom h256 h512 blob ≠ Except.ok s) ∧
    ContractSpecification.tryFrom h256 h512 (List.replicate 16 0)
      = Except.error DecodeError.diverged := by
  constructor
  · intro blob s h
    unfold ContractSpecification.tryFrom at h
    repeat' split at h
    all_goals simp_all [ContractData.fromBytes_eq_none h256 h32]
  · norm_num [ContractSpecification.tryFrom, readU64LE, readExact, List.replicate,
      ContractData.fromBytes_eq_none h256 h32]

/-- Witness for C2 with concrete 32- and 64-byte hashes. -/
theorem tryFrom_never_validates_witness :
    (∀ blob s, ContractSpecification.tryFrom hashOut32 hashOut64 blob ≠ Except.ok s) ∧
    ContractSpecification.tryFrom hashOut32 hashOut64 (List.replicate 16 0)
      = Except.error DecodeError.diverged :=
  tryFrom_never_validates hashOut32 hashOut64 rfl

/-- Claim C3 counterexample: the claim reads that a peer with at most 10
recorded observations — whether from construction or added via `add_event` —
has no per-peer regression, and that `estimate` falls back to the global
interpolation when the global regression has more than 10 points.  Build the
estimator from twelve observations of peer 2 and then `add_event` a single
observation of peer 1: peer 1 has one recorded observation, yet the
estimator now holds a per-peer regression for it, and
`estimate_retrieval_time(1, 1/2)` returns that regression's value 1 instead
of the global interpolation 5. -/
theorem estimator_below_threshold_counterexample :
    estAfterAdd.peerRegressions 1 ≠ none ∧
    MIN_PEER_POINTS_FOR_REGRESSION < estAfterAdd.globalRegression.len ∧
    estAfterAdd.estimateRetrievalTime 1 (1/2) = some 1 ∧
    estAfterAdd.globalRegression.interpolate (1/2) = 5 ∧
    estAfterAdd.estimateRetrievalTime 1 (1/2)
      ≠ some (estAfterAdd.globalRegression.interpolate (1/2)) := by
  have h3 : estAfterAdd.estimateRetrievalTime 1 (1/2) = some 1 := by
    norm_num [estAfterAdd, PeerTimeEstimator.new, PeerTimeEstimator.addEvent,
      PeerTimeEstimator.estimateRetrievalTime, IsotonicRegression.newAscending,
      IsotonicRegression.addPoints, IsotonicRegression.len,
      IsotonicRegression.interpolate, interpolateGo, pav, pavPush, sortByX,
      insertByX, mergeCentroid, RoutingEvent.toPoint, Location.dist, eventA,
      eventB, MIN_PEER_POINTS_FOR_REGRESSION, List.replicate]
  have h4 : estAfterAdd.globalRegression.interpolate (1/2) = 5 := by
    norm_num [estAfterAdd, PeerTimeEstimator.new, PeerTimeEstimator.addEvent,
      IsotonicRegression.newAscending, IsotonicRegression.addPoints,
      IsotonicRegression.interpolate, interpolateGo, pav, pavPush, sortByX,
      insertByX, mergeCentroid, RoutingEvent.toPoint, Location.dist, eventA,
      eventB, List.replicate]
  have h2 : MIN_PEER_POINTS_FOR_REGRESSION < estAfterAdd.globalRegression.len := by
    norm_num [estAfterAdd, PeerTimeEstimator.new, PeerTimeEstimator.addEvent,
      IsotonicRegression.newAscending, IsotonicRegression.addPoints,
      IsotonicRegression.len, MIN_PEER_POINTS_FOR_REGRESSION, List.replicate]
  refine ⟨by decide, h2, h3, h4, ?_⟩
  rw [h3, h4]
  norm_num

/-- Claim C3 (as amended): a peer all of whose at-most-10 observations were
supplied at construction has no per-peer regression, and `estimate` for it
returns the global interpolation whenever the global regression has more
than 10 points; however `add_event` unconditionally creates (or updates) the
per-peer regression of the event's peer, which `estimate` then uses
regardless of how few observations that peer has. -/
theorem estimator_fallback_construction_only (hist : List RoutingEvent) (p : Nat) (d : ℚ)
    (hle : (hist.filter (fun e => e.peer == p)).length ≤ MIN_PEER_POINTS_FOR_REGRESSION) :
    (PeerTimeEstimator.new hist).peerRegressions p = none ∧
    (MIN_PEER_POINTS_FOR_REGRESSION < (PeerTimeEstimator.new hist).globalRegression.len →
      (PeerTimeEstimator.new hist).estimateRetrievalTime p d
        = some ((PeerTimeEstimator.new hist).globalRegression.interpolate d)) ∧
    (∀ (est : PeerTimeEstimator) (e : RoutingEvent),
      ((est.addEvent e).peerRegressions e.peer).isSome = true) := by
  have h1 : (PeerTimeEstimator.new hist).peerRegressions p = none := by
    simp only [PeerTimeEstimator.new]
    rw [if_neg]
    simp only [List.length_map]
    omega
  refine ⟨h1, ?_, ?_⟩
  · intro hg
    simp [PeerTimeEstimator.estimateRetrievalTime, h1, hg]
  · intro est e
    simp [PeerTimeEstimator.addEvent]

/-- Witness for the amended C3: peer 1 contributes no events to a history of
twelve peer-2 observations, so it has no regression and falls back to the
global interpolation. -/
theorem estimator_fallback_construction_only_witness :
    (PeerTimeEstimator.new (List.replicate 12 eventB)).peerRegressions 1 = none ∧
    (MIN_PEER_POINTS_FOR_REGRESSION
        < (PeerTimeEstimator.new (List.replicate 12 eventB)).globalRegression.len →
      (PeerTimeEstimator.new (List.replicate 12 eventB)).estimateRetrievalTime 1 (1/2)
        = some ((PeerTimeEstimator.new
            (List.replicate 12 eventB)).globalRegression.interpolate (1/2))) ∧
    (∀ (est : PeerTimeEstimator) (e : RoutingEvent),
      ((est.addEvent e).peerRegressions e.peer).isSome = true) :=
  estimator_fallback_construction_only (List.replicate 12 eventB) 1 (1/2) (by decide)

/-- Claim C4: the claim reads that a peer handling `Req::Initial` with a
forward target, `hops_to_live > 0` and a nonempty neighbor set forwards
`Req::Proxy { joiner, hops_to_live = min(hops_to_live, max_hops_to_live) - 1 }`
and remains `Connecting` awaiting `Resp::Proxy` responses.  On the code, the
branch does construct and send exactly that proxy request, but then falls
into `todo!()` — it panics instead of returning any operation state, as its
own `TODO` comment (add a `WaitingProxyResponse` state) records.  Concretely:
hops 1 (below `rnd_if_htl_above` 7), one neighbor at the freshly drawn
location `1/4`, sender peer 3 — the call ends in the `todo!()` after sending
the proxy request with hop count `min(1, 10) - 1 = 0`. -/
theorem updateState_forward_reaches_todo :
    updateState ringOneNeighbor ⟨.initializing⟩ (.req 0 (.initial gatewayPKL 3 1 10)) (1/4) none
      = .hitTodo [(⟨2, some (1/4)⟩, .req 0 (.proxy ⟨3, some (1/4)⟩ (min 1 10 - 1)))] := by
  norm_num [updateState, forwardTarget, btreeGet, NodeRing.shouldAccept, Location.dist,
    ringOneNeighbor, gatewayPKL]

/-- Claim C5: the claim reads that with `hops_to_live` below
`rnd_if_htl_above` the forward target is the neighbor minimizing circular
arc distance to the joiner's new location (ties toward the smaller peer id).
On the code, the selection is `connections_by_location.get(&new_location)` —
an exact-key lookup in the ordered map, not a nearest-neighbor search — so
with the single neighbor at `1/4` (trivially the closest) and the fresh
location `3/10`, no target is found at all and the peer replies immediately
instead of forwarding to that neighbor. -/
theorem updateState_ignores_closest_neighbor :
    updateState ringOneNeighbor ⟨.initializing⟩ (.req 0 (.initial gatewayPKL 3 1 10)) (3/10) none
      = .ok [] ⟨some (.resp 0 gatewayPKL (.initial [gatewayPKL] (3/10) 3)),
          some ⟨.initializing⟩⟩ ∧
    btreeGet ringOneNeighbor.connectionsByLocation (3/10) = none ∧
    ringOneNeighbor.connectionsByLocation ≠ [] := by
  refine ⟨?_, ?_, by decide⟩ <;>
    norm_num [updateState, forwardTarget, btreeGet, NodeRing.shouldAccept, Location.dist,
      ringOneNeighbor, gatewayPKL]

/-- Claim C6: the `Connected` state of the join-ring state machine is
terminal and absorbing: `transition` yields no successor state for any
input, and the `rust_fsm` `consume` therefore rejects every input with a
`TransitionImpossibleError`. -/
theorem connected_state_absorbing (msg : JoinRingMsg) :
    JROpSM.transition JRState.connected msg = none ∧
    JROpSM.consume JRState.connected msg = Except.error () := by
  cases msg with
  | req i m => cases m <;> exact ⟨rfl, rfl⟩
  | resp i s m => cases m <;> exact ⟨rfl, rfl⟩
  | connected => exact ⟨rfl, rfl⟩

/-- Claim C7: the claim reads that with `hops_to_live = 0` (or no neighbors)
the peer performs no forwarding and immediately replies `Resp::Initial` to
the joiner.  On the code, no forwarding indeed happens and the
`Resp::Initial { accepted_by, your_location, your_peer_id }` reply is built
immediately — but its `sender` field is set to `target_loc` (the gateway
handling the request), and `join_ring_op` addresses the outgoing reply to
`return_msg.sender()`; the reply is therefore sent to the gateway itself
(peer 1 below), not to the joiner `req_peer` (peer 2), contradicting both
the claim and the code's own log line that reports sending the response to
`req_peer`. -/
theorem joinRingOp_reply_not_to_joiner :
    joinRingOp ringOneNeighbor (fun _ => none) (3/10) none (.req 0 (.initial gatewayPKL 2 0 10))
      = some ⟨[(gatewayPKL, .joinRing (.resp 0 gatewayPKL (.initial [gatewayPKL] (3/10) 2)))],
              some (0, ⟨.initializing⟩), none⟩ ∧
    gatewayPKL.peer ≠ 2 := by
  refine ⟨?_, by decide⟩
  norm_num [joinRingOp, JoinRingMsg.id, JoinRingMsg.sender, updateState, forwardTarget,
    btreeGet, NodeRing.shouldAccept, Location.dist, ringOneNeighbor, gatewayPKL]

/-- Claim C8: `JoinRingMsg::id` and `JoinRingMsg::sender` hit `todo!()` — a
panic — on the payload-less `Connected` variant, and `join_ring_op`, whose
first action is to read the incoming message's id, therefore diverges on
every `Connected` message, whatever the storage contents and oracles. -/
theorem connected_message_diverges (ring : NodeRing) (pop : Nat → Option JoinRingOpState)
    (newLocation : ℚ) (rndPeer : Option PeerKeyLocation) :
    JoinRingMsg.id JoinRingMsg.connected = none ∧
    JoinRingMsg.sender JoinRingMsg.connected = none ∧
    joinRingOp ring pop newLocation rndPeer JoinRingMsg.connected = none :=
  ⟨rfl, rfl, rfl⟩

/-- Claim C10: in the non-forwarding path of `Req::Initial` handling —
`hops_to_live = 0`, an empty neighbor map, or no forward target found — the
`OperationResult` carries exactly the input operation state, unmutated, next
to the immediate reply, and nothing is sent from inside `update_state`. -/
theorem updateState_non_forwarding_keeps_state (ring : NodeRing) (st : JoinRingOpState)
    (i reqPeer htl maxHtl : Nat) (targetLoc : PeerKeyLocation) (newLoc yourLoc : ℚ)
    (rndPeer : Option PeerKeyLocation)
    (hloc : targetLoc.location = some yourLoc)
    (hnf : htl = 0 ∨ ring.connectionsByLocation.isEmpty = true ∨
           forwardTarget ring reqPeer htl newLoc rndPeer = none) :
    updateState ring st (.req i (.initial targetLoc reqPeer htl maxHtl)) newLoc rndPeer
      = .ok [] ⟨some (.resp i targetLoc
          (.initial (if ring.shouldAccept yourLoc newLoc then [targetLoc] else [])
            newLoc reqPeer)),
          some st⟩ := by
  simp only [updateState, hloc]
  rcases hnf with h | h | h
  · subst h
    simp
  · simp [h]
  · simp [h, ite_self]

/-- Witness for C10: a gateway with no neighbors and a zero-hop request. -/
theorem updateState_non_forwarding_keeps_state_witness :
    updateState ⟨[], 20, 10, 7⟩ ⟨.initializing⟩ (.req 0 (.initial ⟨1, some 0⟩ 2 0 10)) 0 none
      = .ok [] ⟨some (.resp 0 ⟨1, some 0⟩
          (.initial (if NodeRing.shouldAccept ⟨[], 20, 10, 7⟩ 0 0 then [⟨1, some 0⟩] else [])
            0 2)),
          some ⟨.initializing⟩⟩ :=
  updateState_non_forwarding_keeps_state ⟨[], 20, 10, 7⟩ ⟨.initializing⟩ 0 2 0 10
    ⟨1, some 0⟩ 0 0 none rfl (Or.inl rfl)

/-- In a list sorted strictly by id, ids grow with the index. -/
theorem sortedIdGet (msgs : List MessageModel)
    (hs : msgs.Pairwise (fun a b => a.id < b.id)) {i j : Nat} (hij : i < j)
    {mi mj : MessageModel} (hi : msgs.get? i = some mi) (hj : msgs.get? j = some mj) :
    mi.id < mj.id := by
  obtain ⟨hi_lt, hi_eq⟩ := List.get?_eq_some.mp hi
  obtain ⟨hj_lt, hj_eq⟩ := List.get?_eq_some.mp hj
  have := List.pairwise_iff_get.mp hs ⟨i, hi_lt⟩ ⟨j, hj_lt⟩ hij
  rw [hi_eq, hj_eq] at this
  exact this

/-- Soundness of the binary search loop: a returned position holds a message
with the searched id. -/
theorem binSearchGo_sound (msgs : List MessageModel) (t : Nat) :
    ∀ fuel lo hi p, binSearchGo msgs t fuel lo hi = some p →
      ∃ m, msgs.get? p = some m ∧ m.id = t := by
  intro fuel
  induction fuel with
  | zero => intro lo hi p h; simp [binSearchGo] at h
  | succ n ih =>
    intro lo hi p h
    simp only [binSearchGo] at h
    by_cases hlt : lo < hi
    · rw [if_pos hlt] at h
      cases hm : msgs.get? ((lo + hi) / 2) with
      | none =>
        simp only [hm] at h
        exact Option.noConfusion h
      | some m =>
        simp only [hm] at h
        by_cases h1 : m.id = t
        · rw [if_pos h1] at h
          obtain rfl := Option.some_inj.mp h
          exact ⟨m, hm, h1⟩
        · rw [if_neg h1] at h
          by_cases h2 : m.id < t
          · rw [if_pos h2] at h
            exact ih _ _ p h
          · rw [if_neg h2] at h
            exact ih _ _ p h
    · rw [if_neg hlt] at h
      exact Option.noConfusion h

/-- Completeness of the binary search loop on a strictly sorted list: when
the searched id is present in the interval and the fuel covers the interval
length, the loop finds a position. -/
theorem binSearchGo_complete (msgs : List MessageModel) (t : Nat)
    (hs : msgs.Pairwise (fun a b => a.id < b.id)) :
    ∀ fuel lo hi, hi ≤ msgs.length → hi - lo ≤ fuel →
      ∀ q m, lo ≤ q → q < hi → msgs.get? q = some m → m.id = t →
      (binSearchGo msgs t fuel lo hi).isSome = true := by
  intro fuel
  induction fuel with
  | zero => intro lo hi _ hfuel q m hlo hq _ _; omega
  | succ n ih =>
    intro lo hi hhi hfuel q m hlo hq hget hid
    have hlt : lo < hi := lt_of_le_of_lt hlo hq
    have hmid_lt : (lo + hi) / 2 < hi := by omega
    have hmid_ge : lo ≤ (lo + hi) / 2 := by omega
    have hmid_len : (lo + hi) / 2 < msgs.length := lt_of_lt_of_le hmid_lt hhi
    have hm2 : msgs.get? ((lo + hi) / 2) = some msgs[(lo + hi) / 2] :=
      List.get?_eq_get hmid_len
    simp only [binSearchGo, if_pos hlt, hm2]
    by_cases he : (msgs[(lo + hi) / 2]).id = t
    · simp [he]
    · rw [if_neg he]
      by_cases hlt2 : (msgs[(lo + hi) / 2]).id < t
      · rw [if_pos hlt2]
        have hq_gt : (lo + hi) / 2 < q := by
          by_contra hle
          push_neg at hle
          rcases Nat.lt_or_eq_of_le hle with h3 | h3
          · have := sortedIdGet msgs hs h3 hget hm2
            omega
          · rw [h3] at hget
            rw [hget] at hm2
            exact he (by rw [← Option.some_inj.mp hm2, hid])
        exact ih ((lo + hi) / 2 + 1) hi hhi (by omega) q m (by omega) hq hget hid
      · rw [if_neg hlt2]
        have hq_lt : q < (lo + hi) / 2 := by
          by_contra hle
          push_neg at hle
          rcases Nat.lt_or_eq_of_le hle with h3 | h3
          · have := sortedIdGet msgs hs h3 hm2 hget
            omega
          · rw [← h3] at hget
            rw [hget] at hm2
            exact he (by rw [← Option.some_inj.mp hm2, hid])
        exact ih lo ((lo + hi) / 2) (by omega) (by omega) q m hlo hq_lt hget hid

/-- Removing the position of a message from a strictly sorted list equals
filtering out its id (ids are unique under the sorting). -/
theorem eraseIdx_eq_filter (msgs : List MessageModel)
    (hs : msgs.Pairwise (fun a b => a.id < b.id)) :
    ∀ p m, msgs.get? p = some m →
      msgs.eraseIdx p = msgs.filter (fun x => x.id != m.id) := by
  induction msgs with
  | nil => intro p m h; simp at h
  | cons a rest ih =>
    intro p m h
    obtain ⟨hhead, htail⟩ := List.pairwise_cons.mp hs
    cases p with
    | zero =>
      obtain rfl : a = m := Option.some_inj.mp h
      have h1 : (a :: rest).eraseIdx 0 = rest := rfl
      rw [h1, List.filter_cons]
      have h2 : (a.id != a.id) = false := bne_self_eq_false a.id
      rw [h2, if_neg (by simp)]
      refine (List.filter_eq_self.mpr ?_).symm
      intro x hx
      have := hhead x hx
      simp only [bne_iff_ne, ne_eq]
      omega
    | succ n =>
      have h2 : rest.get? n = some m := h
      have hmem : m ∈ rest := List.get?_mem h2
      have hlt : a.id < m.id := hhead m hmem
      have h1 : (a :: rest).eraseIdx (n + 1) = a :: rest.eraseIdx n := rfl
      rw [h1, List.filter_cons]
      have hne : (a.id != m.id) = true := by
        simp only [bne_iff_ne, ne_eq]
        omega
      rw [hne, if_pos rfl]
      rw [ih htail n m h2]

/-- `remove_received_message` never touches the settings and only ever drops
messages, in order. -/
theorem remove_settings_sublist (st : InboxModel) (ids : List Nat) :
    (st.removeReceivedMessage ids).settings = st.settings ∧
    (st.removeReceivedMessage ids).messages.Sublist st.messages := by
  unfold InboxModel.removeReceivedMessage
  by_cases hlen : 1 < ids.length
  · rw [if_pos hlen]
    exact ⟨rfl, List.filter_sublist _⟩
  · rw [if_neg hlen]
    rcases ids with _ | ⟨a, _ | ⟨b, tl⟩⟩
    · exact ⟨rfl, List.Sublist.refl _⟩
    · simp only [List.foldl]
      cases h : binSearchById st.messages a
      · exact ⟨rfl, List.Sublist.refl _⟩
      · exact ⟨rfl, List.eraseIdx_sublist _ _⟩
    · exact absurd (by simp) hlen

/-- The single-id removal path under sortedness equals filtering that id
out: a found position holds the id (search soundness), and an absent id is
never found (search completeness), leaving the list unchanged just as the
filter does. -/
theorem remove_single_eq_filter (st : InboxModel)
    (hs : st.messages.Pairwise (fun a b => a.id < b.id)) (i : Nat) :
    (st.removeReceivedMessage [i]).messages
      = st.messages.filter (fun m => m.id != i) := by
  unfold InboxModel.removeReceivedMessage
  rw [if_neg (by simp)]
  simp only [List.foldl]
  cases h : binSearchById st.messages i with
  | some p =>
    rw [binSearchById] at h
    obtain ⟨m, hget, hid⟩ := binSearchGo_sound st.messages i _ _ _ p h
    subst hid
    exact eraseIdx_eq_filter st.messages hs p m hget
  | none =>
    rw [List.filter_eq_self.mpr]
    intro m hm
    simp only [bne_iff_ne, ne_eq]
    intro heq
    obtain ⟨⟨q, hqlen⟩, hq⟩ := List.mem_iff_get.mp hm
    have hcomplete := binSearchGo_complete st.messages i hs st.messages.length 0
      st.messages.length le_rfl (by omega) q m (Nat.zero_le q) hqlen
      (by rw [List.get?_eq_get hqlen, hq]) heq
    rw [binSearchById] at h
    rw [h] at hcomplete
    exact Bool.noConfusion hcomplete

/-- Claim C9: under the inbox invariant (ids strictly increasing and below
`next_msg_id`), `add_received_message` appends a message whose id
(`next_msg_id`) exceeds every stored id and increments the counter,
preserving the invariant; `remove_received_message` only drops messages,
preserving order and the invariant; and the single-id path, built on binary
search by id, removes exactly the message with that id. -/
theorem inbox_messages_sorted (st : InboxModel) (hinv : InboxInv st) :
    (∀ c tok,
      (st.addReceivedMessage c tok).messages
          = st.messages ++ [⟨st.settings.nextMsgId, c, tok⟩] ∧
      (∀ m ∈ st.messages, m.id < st.settings.nextMsgId) ∧
      (st.addReceivedMessage c tok).settings.nextMsgId = st.settings.nextMsgId + 1 ∧
      InboxInv (st.addReceivedMessage c tok)) ∧
    (∀ ids, (st.removeReceivedMessage ids).messages.Sublist st.messages ∧
      InboxInv (st.removeReceivedMessage ids)) ∧
    (∀ i, (st.removeReceivedMessage [i]).messages
        = st.messages.filter (fun m => m.id != i)) := by
  obtain ⟨hp, hb⟩ := hinv
  refine ⟨?_, ?_, fun i => remove_single_eq_filter st hp i⟩
  · intro c tok
    refine ⟨rfl, hb, rfl, ?_, ?_⟩
    · rw [InboxModel.addReceivedMessage]
      refine List.pairwise_append.mpr ⟨hp, List.pairwise_singleton _ _, ?_⟩
      intro a ha b hbm
      simp only [List.mem_singleton] at hbm
      subst hbm
      exact hb a ha
    · intro m hm
      simp only [InboxModel.addReceivedMessage, List.mem_append,
        List.mem_singleton] at hm
      rcases hm with hm | rfl
      · exact Nat.lt_succ_of_lt (hb m hm)
      · exact Nat.lt_succ_self _
  · intro ids
    obtain ⟨hset, hsub⟩ := remove_settings_sublist st ids
    refine ⟨hsub, ?_, ?_⟩
    · exact List.Pairwise.sublist hsub hp
    · intro m hm
      rw [hset]
      exact hb m (hsub.subset hm)

/-- Witness for C9 on a concrete three-message inbox. -/
theorem inbox_messages_sorted_witness :
    (InboxModel.removeReceivedMessage inboxThree [1]).messages
      = inboxThree.messages.filter (fun m => m.id != 1) :=
  (inbox_messages_sorted inboxThree (by constructor <;> decide)).2.2 1
